import Mathlib

/-!
Verification of movie-searcher: a shallow embedding of `src/movie-loader.cpp`

The C++ program loads a `movieId,title,genres` CSV file into a vector of
`Movie` records, builds two lookup tables and answers interactive searches.

Modelling conventions.

* A `std::string` is a list of characters (`Str`); one `Char` stands for one
  `char` of the string.
* `size_t` values are natural numbers below `2 ^ 64`, as the sizes and positions
  of every `std::string` are; the subtractions that can wrap (`open - 1`,
  `lastQuote - firstQuote - 1`) go through `sizeSub`.
* `int` values are `Int`; `std::stoi` checks the 32-bit range explicitly.
* A C++ exception that nothing catches, and an access outside a vector, is the
  result `none` of an `Option`-valued function.
* Positions in the `movies` vector are natural numbers.
* `std::unordered_map` and `std::unordered_set` are lists with one entry per key;
  the order in which they hand out their entries is left open by C++, so a
  statement about a loop over one of them is made for every arrangement
  (`List.Perm`) of its entries.
* `std::cin` is the list of the lines that are still unread.
-/

namespace MovieSearcher

/-- A `std::string`. -/
abbrev Str := List Char

/-- The record of lines 13-18: `struct Movie`. -/
structure Movie where
  movieId : Int
  title : Str
  year : Int
  genres : List Str
  deriving DecidableEq, Repr

/-! ## Character classes of `<cctype>` in the default "C" locale -/

/-- The function `std::isspace`: space, `\t`, `\n`, `\v`, `\f`, `\r`. -/
def isspace (c : Char) : Bool :=
  c.toNat = 32 || (9 ≤ c.toNat && c.toNat ≤ 13)

/-- The function `std::isdigit`. -/
def isdigit (c : Char) : Bool :=
  48 ≤ c.toNat && c.toNat ≤ 57

/-- The function `std::tolower`: `A`..`Z` go to `a`..`z`, every other character stays. -/
def tolower (c : Char) : Char :=
  if 65 ≤ c.toNat ∧ c.toNat ≤ 90 then Char.ofNat (c.toNat + 32) else c

/-- The function `std::toupper`: `a`..`z` go to `A`..`Z`, every other character stays. -/
def toupper (c : Char) : Char :=
  if 97 ≤ c.toNat ∧ c.toNat ≤ 122 then Char.ofNat (c.toNat - 32) else c

/-! ## `std::string` members -/

/-- Subtraction `a - b` of two `size_t` values (both below `2 ^ 64`), wrapping
around when `b` exceeds `a`. -/
def sizeSub (a b : Nat) : Nat := if b ≤ a then a - b else a + 2 ^ 64 - b

/-- The member `s.find(c)`: position of the first `c`, `none` for `npos`. -/
def findChar (c : Char) : Str → Option Nat
  | [] => none
  | x :: xs => if x = c then some 0 else (findChar c xs).map (· + 1)

/-- The member `s.find_last_of(c)`: position of the last `c`, `none` for `npos`. -/
def find_last_of (c : Char) : Str → Option Nat
  | [] => none
  | x :: xs =>
    match find_last_of c xs with
    | some i => some (i + 1)
    | none => if x = c then some 0 else none

/-- The member `s.find(p)` for a string `p`: position of the first occurrence of `p`. -/
def findStr (p : Str) : Str → Option Nat
  | [] => if p = [] then some 0 else none
  | x :: xs => if p.isPrefixOf (x :: xs) then some 0 else (findStr p xs).map (· + 1)

/-- The member `s.substr(pos, len)`: throws `std::out_of_range` (here `none`) when
`pos > s.size()`, otherwise the characters from `pos` on, at most `len` of them. -/
def substr (s : Str) (pos len : Nat) : Option Str :=
  if pos > s.length then none else some ((s.drop pos).take len)

/-- The member `s.substr(pos)` with the length left out: the rest of the string from
`pos` on, `std::out_of_range` (here `none`) when `pos > s.size()`. -/
def substrFrom (s : Str) (pos : Nat) : Option Str :=
  if pos > s.length then none else some (s.drop pos)

/-! ## `std::stoi` -/

/-- Value of a string of decimal digits, most significant digit first. -/
def digitsValue (ds : Str) : Nat :=
  ds.foldl (fun acc c => 10 * acc + (c.toNat - 48)) 0

/-- The function `std::stoi(s)` in base 10: leading white space is skipped, one
optional sign is read, then the longest run of digits; what follows the digits is
ignored. No digit gives `std::invalid_argument`, a value outside the `int` range
gives `std::out_of_range`; both are `none`. -/
def stoi (s : Str) : Option Int :=
  let s1 := s.dropWhile isspace
  let neg := s1.head? = some '-'
  let s2 := if s1.head? = some '-' ∨ s1.head? = some '+' then s1.drop 1 else s1
  let ds := s2.takeWhile isdigit
  if ds = [] then none
  else
    let v : Int := if neg then -(digitsValue ds : Int) else (digitsValue ds : Int)
    if -(2 ^ 31) ≤ v ∧ v < 2 ^ 31 then some v else none

/-! ## `split` (lines 21-31) -/

/-- One call `std::getline(ss, token, delimiter)` on the unread part `s` of a string
stream: `none` when no character can be extracted (the call fails), otherwise the
token and the part that is still unread (the delimiter is consumed, not stored). -/
def getline (delimiter : Char) (s : Str) : Option (Str × Str) :=
  if s = [] then none
  else some (s.takeWhile (· != delimiter), (s.dropWhile (· != delimiter)).drop 1)

/-- The loop of lines 27-29, with a bound on the number of iterations. -/
def splitLoop (delimiter : Char) : Nat → Str → List Str
  | 0, _ => []
  | fuel + 1, s =>
    match getline delimiter s with
    | none => []
    | some (token, rest) => token :: splitLoop delimiter fuel rest

/-- The function `split(s, delimiter)`; every iteration consumes at least one
character, so `s.length + 1` iterations are enough. -/
def split (s : Str) (delimiter : Char) : List Str :=
  splitLoop delimiter (s.length + 1) s

/-! ## `extractYear` (lines 34-55) -/

/-- The function `extractYear(title)`: the returned year and the title as the call
leaves it. `none` would be an exception leaving the function. -/
def extractYear (title : Str) : Option (Int × Str) :=
  match find_last_of '(' title, find_last_of ')' title with
  | some openPos, some closePos =>
    if closePos > openPos then
      match substr title (openPos + 1) (sizeSub (sizeSub closePos openPos) 1) with
      | none => none
      | some yearStr =>
        match stoi yearStr with
        | some year =>
          match substr title 0 (sizeSub openPos 1) with
          | some t => some (year, t)
          | none => some (-1, title)
        | none => some (-1, title)
    else some (-1, title)
  | _, _ => some (-1, title)

/-! ## `loadMovies` (lines 58-105) -/

/-- A `std::getline(ss, field, ',')` of lines 76, 89, 90 into a fresh empty string:
a failed call leaves the field empty. -/
def getField (s : Str) : Str × Str :=
  match getline ',' s with
  | some r => r
  | none => ([], [])

/-- Lines 76-91: the three raw fields `idStr`, `title`, `genresStr` of one line. -/
def rawFields (line : Str) : Option (Str × Str × Str) :=
  let (idStr, ss1) := getField line
  match findChar '"' line with
  | some firstQuote =>
    match find_last_of '"' line with
    | some lastQuote =>
      match substr line (firstQuote + 1) (sizeSub (sizeSub lastQuote firstQuote) 1) with
      | none => none
      | some title =>
        match substrFrom line (lastQuote + 2) with
        | none => none
        | some genresStr => some (idStr, title, genresStr)
    | none => none
  | none =>
    let (title, ss2) := getField ss1
    let (genresStr, _) := getField ss2
    some (idStr, title, genresStr)

/-- The body of the loop of lines 71-101: one line of the file to one `Movie`. -/
def parseLine (line : Str) : Option Movie :=
  match rawFields line with
  | none => none
  | some (idStr, title, genresStr) =>
    match stoi idStr with
    | none => none
    | some movieId =>
      match extractYear title with
      | none => none
      | some (year, title1) =>
        some { movieId := movieId, title := title1, year := year,
               genres := split genresStr '|' }

/-- The function `loadMovies` on the lines of an opened file: the header line is
skipped, every other line is parsed; an exception ends the load. -/
def loadMovies (lines : List Str) : Option (List Movie) :=
  (lines.drop 1).mapM parseLine

/-! ## The lookup tables (lines 109-133) -/

/-- A `std::unordered_map`: a list of entries, one per key. -/
abbrev Table (κ ν : Type) := List (κ × ν)

/-- The member `m.find(k)`: the value stored under `k`, `none` for `m.end()`. -/
def tableFind {κ ν : Type} [DecidableEq κ] (k : κ) : Table κ ν → Option ν
  | [] => none
  | (k1, v) :: rest => if k1 = k then some v else tableFind k rest

/-- The assignment `m[k] = v`: the entry of `k` is overwritten, or added when absent. -/
def tableAssign {κ ν : Type} [DecidableEq κ] (k : κ) (v : ν) : Table κ ν → Table κ ν
  | [] => [(k, v)]
  | (k1, v1) :: rest =>
    if k1 = k then (k, v) :: rest else (k1, v1) :: tableAssign k v rest

/-- The keys of a table. -/
def tableKeys {κ ν : Type} (t : Table κ ν) : List κ := t.map Prod.fst

/-- The loop of lines 128-130 from counter value `i` on, over the records not yet
visited. -/
def buildIdIndexFrom (i : Nat) (idIndex : Table Int Nat) : List Movie → Table Int Nat
  | [] => idIndex
  | m :: rest => buildIdIndexFrom (i + 1) (tableAssign m.movieId i idIndex) rest

/-- The function `buildIdIndex(movies)`. -/
def buildIdIndex (movies : List Movie) : Table Int Nat :=
  buildIdIndexFrom 0 [] movies

/-! ## `toLower` (lines 156-161) -/

/-- The function `toLower(s)`. -/
def toLower (s : Str) : Str := s.map tolower

/-! ## The `search` command of `main` (lines 203-311) -/

/-- One `std::getline(std::cin, line)`: at the end of the input the call fails and
the (fresh) string stays empty. -/
def getlineCin : List Str → Str × List Str
  | [] => ([], [])
  | line :: rest => (line, rest)

/-- The loop of lines 243-249: the requested genres, lowercased, up to the first
empty line or the line `done`. -/
def readGenres : List Str → List Str × List Str
  | [] => ([], [])
  | line :: rest =>
    let g := toLower line
    if g = [] ∨ g = "done".toList then ([], rest)
    else ((g :: (readGenres rest).1), (readGenres rest).2)

/-- Lines 256-260: the year filter, `-1` when nothing or nothing numeric was typed. -/
def readYear (yearInput : Str) : Int :=
  if yearInput = [] then -1
  else
    match stoi yearInput with
    | some y => y
    | none => -1

/-- The variables the filter loop of lines 262-310 reads. -/
structure Filters where
  keyword : Str
  filterGenres : List Str
  yearFilter : Int
  deriving DecidableEq, Repr

/-- Lines 228-260: the three prompts answered from the unread input. -/
def readFilters (cin : List Str) : Filters :=
  let (keyword, cin1) := getlineCin cin
  let (filterGenres, cin2) := readGenres cin1
  let (yearInput, _) := getlineCin cin2
  { keyword := keyword, filterGenres := filterGenres, yearFilter := readYear yearInput }

/-- Lines 269-272, the title check, as a step on the variable `matches` (here `matched`). -/
def titleCheck (f : Filters) (m : Movie) (matched : Bool) : Bool :=
  if f.keyword ≠ [] ∧ findStr (toLower f.keyword) (toLower m.title) = none then false
  else matched

/-- Lines 274-277, the year check, as a step on the variable `matches` (here `matched`). -/
def yearCheck (f : Filters) (m : Movie) (matched : Bool) : Bool :=
  if f.yearFilter ≠ -1 ∧ m.year ≠ f.yearFilter then false else matched

/-- Lines 284-290: the inner loop, is `fg` the lowercase of a genre of the record. -/
def foundGenre (fg : Str) : List Str → Bool
  | [] => false
  | mg :: rest => if toLower mg = fg then true else foundGenre fg rest

/-- Lines 282-295: the outer loop, the variable `hasAll`. -/
def hasAll (genres : List Str) : List Str → Bool
  | [] => true
  | fg :: rest => if foundGenre fg genres then hasAll genres rest else false

/-- Lines 279-297, the genre check, as a step on the variable `matches` (here `matched`). -/
def genreCheck (f : Filters) (m : Movie) (matched : Bool) : Bool :=
  if f.filterGenres ≠ [] ∧ hasAll m.genres f.filterGenres = false then false else matched

/-- The value of `matches` at line 300. -/
def matchesMovie (f : Filters) (m : Movie) : Bool :=
  genreCheck f m (yearCheck f m (titleCheck f m true))

/-- The loop of lines 266-309 with the counter `count`: the records it prints. -/
def searchLoop (f : Filters) : Nat → List Movie → List Movie
  | _, [] => []
  | count, m :: rest =>
    if matchesMovie f m then
      if count + 1 ≥ 10 then [m] else m :: searchLoop f (count + 1) rest
    else searchLoop f count rest

/-- Lines 262-310: the filter loop started with `count = 0`. -/
def runFilters (f : Filters) (movies : List Movie) : List Movie :=
  searchLoop f 0 movies

/-- The `search` command (lines 203-311) on the loaded records and the unread
input lines: the records it prints, `none` when an exception ends the program. -/
def search (movies : List Movie) (cin : List Str) : Option (List Movie) :=
  let idIndex := buildIdIndex movies
  let (idInput, cin1) := getlineCin cin
  if idInput ≠ [] then
    match stoi idInput with
    | none => none
    | some movieId =>
      match tableFind movieId idIndex with
      | some idx =>
        match movies[idx]? with
        | some m => some [m]
        | none => none
      | none => some []
  else some (runFilters (readFilters cin1) movies)

/-- Spec-side lookup `byId` of section 4.2: the record at position `idIndex[id]`. -/
def byId (movies : List Movie) (id : Int) : Option Movie :=
  match tableFind id (buildIdIndex movies) with
  | some idx => movies[idx]?
  | none => none

/-! ## `buildGenreIndex`, the table `genreIndexLower`, `getAllGenres`, `capitalizeWords` -/

/-- The loop of lines 139-150 with the flag `capitalizeNext`. -/
def capitalizeLoop : Bool → Str → Str
  | _, [] => []
  | capitalizeNext, c :: cs =>
    if isspace c = true ∨ c = '-' then c :: capitalizeLoop true cs
    else if capitalizeNext = true then toupper c :: capitalizeLoop false cs
    else tolower c :: capitalizeLoop capitalizeNext cs

/-- The function `capitalizeWords(s)`. -/
def capitalizeWords (s : Str) : Str := capitalizeLoop true s

/-- The statement `genreIndex[g].push_back(i)` of line 116. -/
def tablePush (g : Str) (i : Nat) : Table Str (List Nat) → Table Str (List Nat)
  | [] => [(g, [i])]
  | (k, v) :: rest =>
    if k = g then (k, v ++ [i]) :: rest else (k, v) :: tablePush g i rest

/-- The inner loop of lines 115-117 for the record at position `i`. -/
def pushGenres (i : Nat) (genreIndex : Table Str (List Nat)) :
    List Str → Table Str (List Nat)
  | [] => genreIndex
  | g :: rest => pushGenres i (tablePush g i genreIndex) rest

/-- The loop of lines 113-118 from counter value `i` on. -/
def buildGenreIndexFrom (i : Nat) (genreIndex : Table Str (List Nat)) :
    List Movie → Table Str (List Nat)
  | [] => genreIndex
  | m :: rest => buildGenreIndexFrom (i + 1) (pushGenres i genreIndex m.genres) rest

/-- The function `buildGenreIndex(movies)`. -/
def buildGenreIndex (movies : List Movie) : Table Str (List Nat) :=
  buildGenreIndexFrom 0 [] movies

/-- The loop of lines 189-191 over the entries of `genreIndex` in the order the
range-for visits them; `std::unordered_map` leaves that order open. -/
def lowerKeysLoop (genreIndexLower : Table Str (List Nat)) :
    List (Str × List Nat) → Table Str (List Nat)
  | [] => genreIndexLower
  | (k, v) :: rest => lowerKeysLoop (tableAssign (toLower k) v genreIndexLower) rest

/-- Lines 188-191: the table `genreIndexLower` for a visiting order `entries` of
`genreIndex`. -/
def genreIndexLower (entries : List (Str × List Nat)) : Table Str (List Nat) :=
  lowerKeysLoop [] entries

/-- The statement `genreSet.insert(g)` of line 168 on a `std::unordered_set`. -/
def setInsert (g : Str) (genreSet : List Str) : List Str :=
  if g ∈ genreSet then genreSet else genreSet ++ [g]

/-- The inner loop of lines 167-169. -/
def insertGenres (genreSet : List Str) : List Str → List Str
  | [] => genreSet
  | g :: rest => insertGenres (setInsert g genreSet) rest

/-- The loop of lines 166-170. -/
def collectGenres (genreSet : List Str) : List Movie → List Str
  | [] => genreSet
  | m :: rest => collectGenres (insertGenres genreSet m.genres) rest

/-- The call `std::sort(begin, end)` of line 172: the ascending arrangement of the
strings. The order `≤` on `Str` is the lexicographic order on the character codes,
which is how `operator<` compares two `std::string`. -/
def stdSort (l : List Str) : List Str := l.insertionSort (· ≤ ·)

/-- The function `getAllGenres(movies)`, with the elements of the set handed out in
the order of their insertion. -/
def getAllGenres (movies : List Movie) : List Str :=
  stdSort (collectGenres [] movies)

/-! ## Definitions used to state and prove the claims -/

/-- The tokens of `s` at the delimiter, by recursion on the characters: a trailing
delimiter closes the last token and opens no new one. -/
def splitRec (delimiter : Char) : Str → List Str
  | [] => []
  | c :: cs =>
    if c = delimiter then [] :: splitRec delimiter cs
    else
      match splitRec delimiter cs with
      | [] => [[c]]
      | t :: ts => (c :: t) :: ts

/-- Spec-side reading of "an optionally signed string of decimal digits". -/
def isSignedDigits (s : Str) : Bool :=
  let body := if s.head? = some '-' ∨ s.head? = some '+' then s.drop 1 else s
  !body.isEmpty && body.all isdigit

/-- Spec-side join: the tokens with the delimiter between neighbours. -/
def joinWith (delimiter : Char) : List Str → Str
  | [] => []
  | [t] => t
  | t :: u :: ts => t ++ delimiter :: joinWith delimiter (u :: ts)

/-- Position of the last record of the list that carries the id `k`, if any. -/
def lastPos (k : Int) : List Movie → Option Nat
  | [] => none
  | m :: rest =>
    match lastPos k rest with
    | some j => some (j + 1)
    | none => if m.movieId = k then some 0 else none

/-- Spec-side reading of "all present predicates succeed" (section 4.3): the
keyword is empty or occurs in the lowercased title as a contiguous substring, the
year filter is absent (`-1`) or equal to the year of the record, the requested genre
list is empty or each requested genre is the lowercase of a genre of the record. -/
def predicatesSucceed (f : Filters) (m : Movie) : Prop :=
  (f.keyword = [] ∨ ∃ a b, toLower m.title = a ++ toLower f.keyword ++ b) ∧
  (f.yearFilter = -1 ∨ m.year = f.yearFilter) ∧
  (f.filterGenres = [] ∨ ∀ fg ∈ f.filterGenres, ∃ mg ∈ m.genres, toLower mg = fg)

/-! ## Lemmas on the filter loop -/

theorem searchLoop_eq_take (f : Filters) (movies : List Movie) :
    ∀ count, count < 10 →
      searchLoop f count movies = (movies.filter (matchesMovie f)).take (10 - count) := by
  induction movies with
  | nil => simp [searchLoop]
  | cons m rest ih =>
    intro count hc
    obtain ⟨k, hk⟩ : ∃ k, 10 - count = k + 1 := ⟨9 - count, by omega⟩
    by_cases hm : matchesMovie f m = true <;> by_cases h9 : 10 ≤ count + 1
    · simp [searchLoop, hm, h9, hk, show k = 0 by omega]
    · simp [searchLoop, hm, h9, hk, ih (count + 1) (by omega), show 10 - (count + 1) = k by omega]
    · simp [searchLoop, hm, ih count hc]
    · simp [searchLoop, hm, ih count hc]

theorem runFilters_eq_take (f : Filters) (movies : List Movie) :
    runFilters f movies = (movies.filter (matchesMovie f)).take 10 := by
  simpa using searchLoop_eq_take f movies 0 (by decide)

theorem mem_runFilters (f : Filters) (movies : List Movie) (m : Movie)
    (h : m ∈ runFilters f movies) : m ∈ movies ∧ matchesMovie f m = true := by
  rw [runFilters_eq_take] at h
  simpa using List.mem_of_mem_take h

theorem search_no_id (movies : List Movie) (cin : List Str) :
    search movies ([] :: cin) = some (runFilters (readFilters cin) movies) := by
  simp [search, getlineCin]

theorem isPrefixOf_iff_append (p s : Str) :
    p.isPrefixOf s = true ↔ ∃ t, s = p ++ t := by
  induction p generalizing s with
  | nil => simp
  | cons x xs ih =>
    cases s with
    | nil => simp
    | cons y ys =>
      simp only [List.isPrefixOf, Bool.and_eq_true, beq_iff_eq, ih, List.cons_append,
        List.cons.injEq]
      exact ⟨fun ⟨h, t, ht⟩ => ⟨t, h.symm, ht⟩, fun ⟨t, h, ht⟩ => ⟨h.symm, t, ht⟩⟩

theorem findStr_ne_none_iff (p s : Str) :
    findStr p s ≠ none ↔ ∃ a b, s = a ++ p ++ b := by
  induction s with
  | nil => by_cases hp : p = [] <;> simp [findStr, hp]
  | cons x xs ih =>
    have hmap : (Option.map (· + 1) (findStr p xs) ≠ none) ↔ findStr p xs ≠ none := by
      cases findStr p xs <;> simp
    unfold findStr
    by_cases hpre : p.isPrefixOf (x :: xs) = true
    · obtain ⟨t, ht⟩ := (isPrefixOf_iff_append p (x :: xs)).1 hpre
      simpa [hpre] using ⟨[], t, by simpa using ht⟩
    · rw [if_neg hpre, hmap, ih]
      constructor
      · rintro ⟨a, b, rfl⟩
        exact ⟨x :: a, b, by simp⟩
      · rintro ⟨a, b, hab⟩
        cases a with
        | nil => exact absurd ((isPrefixOf_iff_append p (x :: xs)).2 ⟨b, by simpa using hab⟩) hpre
        | cons y ys => exact ⟨ys, b, by simpa using (List.cons.inj hab).2⟩

theorem foundGenre_iff (fg : Str) (genres : List Str) :
    foundGenre fg genres = true ↔ ∃ mg ∈ genres, toLower mg = fg := by
  induction genres with
  | nil => simp [foundGenre]
  | cons g rest ih => by_cases h : toLower g = fg <;> simp [foundGenre, h, ih]

theorem hasAll_iff (genres fgs : List Str) :
    hasAll genres fgs = true ↔ ∀ fg ∈ fgs, ∃ mg ∈ genres, toLower mg = fg := by
  induction fgs with
  | nil => simp [hasAll]
  | cons fg rest ih =>
    by_cases h : foundGenre fg genres = true
    · simp [hasAll, h, ih, (foundGenre_iff fg genres).1 h]
    · have h2 := mt (foundGenre_iff fg genres).2 h
      simp [hasAll, h, h2]

theorem matchesMovie_iff (f : Filters) (m : Movie) :
    matchesMovie f m = true ↔ predicatesSucceed f m := by
  unfold matchesMovie genreCheck yearCheck titleCheck predicatesSucceed
  have ht := findStr_ne_none_iff (toLower f.keyword) (toLower m.title)
  have hg := hasAll_iff m.genres f.filterGenres
  by_cases h1 : f.keyword = [] <;> by_cases h2 : f.yearFilter = -1 <;>
    by_cases h3 : f.filterGenres = [] <;>
    by_cases h4 : findStr (toLower f.keyword) (toLower m.title) = none <;>
    by_cases h5 : m.year = f.yearFilter <;>
    by_cases h6 : hasAll m.genres f.filterGenres = true <;>
    simp_all

/-! ## Lemmas on the lookup tables and on letter case -/

theorem tableFind_assign {κ ν : Type} [DecidableEq κ] (k k1 : κ) (v : ν) (t : Table κ ν) :
    tableFind k (tableAssign k1 v t) = if k1 = k then some v else tableFind k t := by
  induction t with
  | nil => simp [tableAssign, tableFind]
  | cons e rest ih =>
    by_cases h21 : e.1 = k1 <;> by_cases h2 : e.1 = k <;> by_cases h1 : k1 = k <;>
      simp_all [tableAssign, tableFind]

theorem mem_tableKeys_assign {κ ν : Type} [DecidableEq κ] (k k1 : κ) (v : ν) (t : Table κ ν) :
    k ∈ tableKeys (tableAssign k1 v t) ↔ k = k1 ∨ k ∈ tableKeys t := by
  induction t with
  | nil => simp [tableAssign, tableKeys]
  | cons e rest ih =>
    simp only [tableKeys] at ih
    by_cases h21 : e.1 = k1
    · simp [tableAssign, tableKeys, h21]
    · simp only [tableAssign, tableKeys, h21, if_false, List.map_cons, List.mem_cons, ih]
      tauto

theorem nodup_tableKeys_assign {κ ν : Type} [DecidableEq κ] (k1 : κ) (v : ν) (t : Table κ ν)
    (h : (tableKeys t).Nodup) : (tableKeys (tableAssign k1 v t)).Nodup := by
  induction t with
  | nil => simp [tableAssign, tableKeys]
  | cons e rest ih =>
    have hcons : e.1 ∉ tableKeys rest ∧ (tableKeys rest).Nodup := by simpa [tableKeys] using h
    by_cases h21 : e.1 = k1
    · simpa [tableAssign, tableKeys, h21] using h
    · have hmem : e.1 ∉ tableKeys (tableAssign k1 v rest) := by
        rw [mem_tableKeys_assign]
        tauto
      have hshape : tableKeys (tableAssign k1 v (e :: rest)) =
          e.1 :: tableKeys (tableAssign k1 v rest) := by
        simp [tableAssign, tableKeys, h21]
      rw [hshape]
      exact List.nodup_cons.2 ⟨hmem, ih hcons.2⟩

theorem lastPos_eq_none_iff (k : Int) (ms : List Movie) :
    lastPos k ms = none ↔ ∀ m ∈ ms, m.movieId ≠ k := by
  induction ms with
  | nil => simp [lastPos]
  | cons m rest ih =>
    unfold lastPos
    cases hl : lastPos k rest with
    | some j =>
      have h1 : ¬ ∀ m ∈ rest, m.movieId ≠ k := fun hx => by simp [ih.2 hx] at hl
      simp only [reduceCtorEq, List.mem_cons, forall_eq_or_imp, false_iff]
      tauto
    | none =>
      have h1 := ih.1 hl
      by_cases hm : m.movieId = k <;> simp [hm]
      exact h1

theorem lastPos_sound (k : Int) (ms : List Movie) (i : Nat) (h : lastPos k ms = some i) :
    (∃ m, ms[i]? = some m ∧ m.movieId = k) ∧
      ∀ j m, i < j → ms[j]? = some m → m.movieId ≠ k := by
  induction ms generalizing i with
  | nil => simp [lastPos] at h
  | cons m rest ih =>
    unfold lastPos at h
    cases hl : lastPos k rest with
    | some j0 =>
      obtain ⟨hj0, hlater⟩ := ih j0 hl
      obtain rfl : j0 + 1 = i := by simpa [hl] using h
      refine ⟨by simpa using hj0, fun j m1 hj hget => ?_⟩
      obtain ⟨j1, rfl⟩ : ∃ j1, j = j1 + 1 := ⟨j - 1, by omega⟩
      exact hlater j1 m1 (by omega) (by simpa using hget)
    | none =>
      rw [hl] at h
      by_cases hm : m.movieId = k
      · obtain rfl : 0 = i := by simpa [hm] using h
        refine ⟨⟨m, by simp, hm⟩, fun j m1 hj hget => ?_⟩
        obtain ⟨j1, rfl⟩ : ∃ j1, j = j1 + 1 := ⟨j - 1, by omega⟩
        exact (lastPos_eq_none_iff k rest).1 hl m1 (List.getElem?_mem (by simpa using hget))
      · simp [hm] at h

theorem lastPos_eq_some_iff (k : Int) (ms : List Movie) (i : Nat) :
    lastPos k ms = some i ↔
      (∃ m, ms[i]? = some m ∧ m.movieId = k) ∧
        ∀ j m, i < j → ms[j]? = some m → m.movieId ≠ k := by
  refine ⟨lastPos_sound k ms i, fun ⟨⟨m, hget, hk⟩, hlater⟩ => ?_⟩
  cases hl : lastPos k ms with
  | none => exact absurd hk ((lastPos_eq_none_iff k ms).1 hl m (List.getElem?_mem hget))
  | some i1 =>
    obtain ⟨⟨m1, hget1, hk1⟩, hlater1⟩ := lastPos_sound k ms i1 hl
    rcases Nat.lt_trichotomy i i1 with h | h | h
    · exact absurd hk1 (hlater i1 m1 h hget1)
    · rw [h]
    · exact absurd hk (hlater1 i m h hget)

theorem tableFind_buildIdIndexFrom (k : Int) (ms : List Movie) :
    ∀ (i : Nat) (t : Table Int Nat),
      tableFind k (buildIdIndexFrom i t ms) =
        match lastPos k ms with
        | some j => some (i + j)
        | none => tableFind k t := by
  induction ms with
  | nil => intro i t; simp [buildIdIndexFrom, lastPos]
  | cons m rest ih =>
    intro i t
    unfold buildIdIndexFrom lastPos
    rw [ih (i + 1) (tableAssign m.movieId i t), tableFind_assign]
    cases hl : lastPos k rest with
    | some j => simp; omega
    | none => by_cases hm : m.movieId = k <;> simp [hm]

theorem tableFind_buildIdIndex (k : Int) (movies : List Movie) :
    tableFind k (buildIdIndex movies) = lastPos k movies := by
  unfold buildIdIndex
  rw [tableFind_buildIdIndexFrom]
  cases lastPos k movies <;> simp [tableFind]

theorem tableKeys_buildIdIndexFrom (ms : List Movie) :
    ∀ (i : Nat) (t : Table Int Nat), (tableKeys t).Nodup →
      (tableKeys (buildIdIndexFrom i t ms)).Nodup ∧
        ∀ k, k ∈ tableKeys (buildIdIndexFrom i t ms) ↔
          k ∈ tableKeys t ∨ ∃ m ∈ ms, m.movieId = k := by
  induction ms with
  | nil => intro i t h; simp [buildIdIndexFrom, h]
  | cons m rest ih =>
    intro i t h
    obtain ⟨h1, h2⟩ := ih (i + 1) (tableAssign m.movieId i t)
      (nodup_tableKeys_assign m.movieId i t h)
    refine ⟨h1, fun k => ?_⟩
    unfold buildIdIndexFrom
    rw [h2 k, mem_tableKeys_assign]
    simp only [List.mem_cons, exists_eq_or_imp, eq_comm (a := k)]
    tauto

theorem tolower_tolower (c : Char) : tolower (tolower c) = tolower c := by
  unfold tolower
  by_cases h : 65 ≤ c.toNat ∧ c.toNat ≤ 90
  · have hval : (Char.ofNat (c.toNat + 32)).toNat = c.toNat + 32 := by
      obtain ⟨h1, h2⟩ := h
      generalize c.toNat = n at h1 h2
      interval_cases n <;> rfl
    rw [if_pos h, hval, if_neg (by omega)]
  · simp [h]

theorem tolower_toupper (c : Char) : tolower (toupper c) = tolower c := by
  unfold toupper
  by_cases h : 97 ≤ c.toNat ∧ c.toNat ≤ 122
  · have hval : (Char.ofNat (c.toNat - 32)).toNat = c.toNat - 32 := by
      obtain ⟨h1, h2⟩ := h
      generalize c.toNat = n at h1 h2
      interval_cases n <;> rfl
    unfold tolower
    rw [if_pos h, hval, if_pos (by omega), if_neg (by omega),
      show c.toNat - 32 + 32 = c.toNat by omega, Char.ofNat_toNat]
  · simp [h]

theorem toLower_toLower (s : Str) : toLower (toLower s) = toLower s := by
  simp [toLower, Function.comp_def, tolower_tolower]

theorem readGenres_lowercased (cin : List Str) :
    ∀ g ∈ (readGenres cin).1, toLower g = g := by
  induction cin with
  | nil => simp [readGenres]
  | cons line rest ih =>
    unfold readGenres
    simp only []
    split_ifs with h
    · simp
    · simpa using ⟨toLower_toLower line, ih⟩

/-! ## Lemmas on the positions of characters -/

theorem bne_of_not_mem (d : Char) (a : Str) (h : d ∉ a) : ∀ x ∈ a, (x != d) = true := by
  intro x hx
  simpa using fun e : x = d => h (e ▸ hx)

theorem takeWhile_ne_append (d : Char) (a rest : Str) (h : d ∉ a) :
    (a ++ d :: rest).takeWhile (· != d) = a := by
  rw [List.takeWhile_append_of_pos (bne_of_not_mem d a h)]
  simp

theorem dropWhile_ne_append (d : Char) (a rest : Str) (h : d ∉ a) :
    (a ++ d :: rest).dropWhile (· != d) = d :: rest := by
  rw [List.dropWhile_append_of_pos (bne_of_not_mem d a h)]
  simp

theorem takeWhile_ne_self (d : Char) (a : Str) (h : d ∉ a) : a.takeWhile (· != d) = a :=
  List.takeWhile_eq_self_iff.2 (bne_of_not_mem d a h)

theorem getField_sep (a rest : Str) (h : ',' ∉ a) :
    getField (a ++ ',' :: rest) = (a, rest) := by
  simp [getField, getline, takeWhile_ne_append ',' a rest h, dropWhile_ne_append ',' a rest h]

theorem getField_fst (s : Str) : (getField s).1 = s.takeWhile (· != ',') := by
  by_cases hne : s = [] <;> simp [getField, getline, hne]

theorem findChar_eq_none_iff (c : Char) (s : Str) : findChar c s = none ↔ c ∉ s := by
  induction s with
  | nil => simp [findChar]
  | cons x xs ih =>
    by_cases hx : x = c
    · simp [findChar, hx]
    · simp only [findChar, hx, if_false, Option.map_eq_none', ih, List.mem_cons, not_or]
      exact ⟨fun h => ⟨fun e => hx e.symm, h⟩, fun h => h.2⟩

theorem findChar_append (c : Char) (a b : Str) (h : c ∉ a) :
    findChar c (a ++ c :: b) = some a.length := by
  induction a with
  | nil => simp [findChar]
  | cons x xs ih => simp_all [findChar, eq_comm]

theorem findChar_some (c : Char) (s : Str) (f : Nat) (h : findChar c s = some f) :
    f < s.length := by
  induction s generalizing f with
  | nil => simp [findChar] at h
  | cons x xs ih =>
    unfold findChar at h
    by_cases hx : x = c
    · obtain rfl : 0 = f := by simpa [hx] using h
      simp
    · cases hf : findChar c xs with
      | none => simp [hx, hf] at h
      | some j =>
        have := ih j hf
        simp [hx, hf] at h
        simp
        omega

theorem find_last_of_eq_none_iff (c : Char) (s : Str) : find_last_of c s = none ↔ c ∉ s := by
  induction s with
  | nil => simp [find_last_of]
  | cons x xs ih =>
    unfold find_last_of
    cases hl : find_last_of c xs with
    | some j =>
      have : c ∈ xs := by_contra fun hn => by simp [ih.2 hn] at hl
      simp [this]
    | none =>
      have := ih.1 hl
      by_cases hx : x = c <;> simp_all [eq_comm]

theorem find_last_of_append (c : Char) (a b : Str) (h : c ∉ b) :
    find_last_of c (a ++ c :: b) = some a.length := by
  induction a with
  | nil => simp [find_last_of, (find_last_of_eq_none_iff c b).2 h]
  | cons x xs ih => simp [find_last_of, ih]

theorem find_last_of_getElem (c : Char) (s : Str) (i : Nat)
    (h : find_last_of c s = some i) : s[i]? = some c ∧ i < s.length := by
  induction s generalizing i with
  | nil => simp [find_last_of] at h
  | cons x xs ih =>
    unfold find_last_of at h
    cases hl : find_last_of c xs with
    | some j =>
      obtain rfl : j + 1 = i := by simpa [hl] using h
      simpa using ih j hl
    | none =>
      by_cases hx : x = c
      · obtain rfl : 0 = i := by simpa [hl, hx] using h
        simp [hx]
      · simp [hl, hx] at h

theorem extractYear_of_order (title : Str) (o c : Nat)
    (ho : find_last_of '(' title = some o) (hc : find_last_of ')' title = some c)
    (hoc : o < c) :
    extractYear title =
      match stoi ((title.drop (o + 1)).take (c - o - 1)) with
      | some y => some (y, title.take (sizeSub o 1))
      | none => some (-1, title) := by
  have hlt := (find_last_of_getElem '(' title o ho).2
  have hs : sizeSub (sizeSub c o) 1 = c - o - 1 := by
    simp only [sizeSub]
    split_ifs <;> omega
  unfold extractYear
  simp only [ho, hc, gt_iff_lt, hoc, if_true, substr, hs,
    show ¬ (title.length < o + 1) by omega, if_false, Nat.not_lt_zero, List.drop_zero]

theorem extractYear_isSome (title : Str) : ∃ r, extractYear title = some r := by
  cases ho : find_last_of '(' title with
  | none => exact ⟨(-1, title), by simp [extractYear, ho]⟩
  | some o =>
    cases hc : find_last_of ')' title with
    | none => exact ⟨(-1, title), by simp [extractYear, ho, hc]⟩
    | some c =>
      by_cases hoc : o < c
      · rw [extractYear_of_order title o c ho hc hoc]
        cases stoi ((title.drop (o + 1)).take (c - o - 1)) <;> exact ⟨_, rfl⟩
      · exact ⟨(-1, title), by simp [extractYear, ho, hc, hoc]⟩

theorem digitsValue_foldl_lt (ds : Str) (hd : ∀ c ∈ ds, isdigit c = true) :
    ∀ acc : Nat, ds.foldl (fun acc c => 10 * acc + (c.toNat - 48)) acc
      < (acc + 1) * 10 ^ ds.length := by
  induction ds with
  | nil => intro acc; simp
  | cons c r ih =>
    intro acc
    have hc9 : c.toNat - 48 ≤ 9 := by
      have hc := hd c (by simp)
      simp only [isdigit, Bool.and_eq_true, decide_eq_true_eq] at hc
      omega
    have h1 := ih (fun x hx => hd x (by simp [hx])) (10 * acc + (c.toNat - 48))
    have h2 : (10 * acc + (c.toNat - 48) + 1) * 10 ^ r.length
        ≤ ((acc + 1) * 10) * 10 ^ r.length := Nat.mul_le_mul_right _ (by omega)
    simp only [List.foldl_cons, List.length_cons, pow_succ]
    calc _ < _ := h1
      _ ≤ _ := h2
      _ = _ := by ring

theorem not_mem_of_digits (ds : Str) (x : Char) (hd : ∀ c ∈ ds, isdigit c = true)
    (hx : isdigit x = false) : x ∉ ds :=
  fun hmem => by simp [hd x hmem] at hx

theorem stoi_digits (ds : Str) (hne : ds ≠ []) (hd : ∀ c ∈ ds, isdigit c = true)
    (hlen : ds.length ≤ 9) : stoi ds = some (digitsValue ds : Int) := by
  obtain ⟨c, r, rfl⟩ := List.exists_cons_of_ne_nil hne
  have hc : isdigit c = true := hd c (by simp)
  have hsp : isspace c = false := by
    simp only [isdigit, Bool.and_eq_true, decide_eq_true_eq] at hc
    simp only [isspace, Bool.or_eq_false_iff, decide_eq_false_iff_not, Bool.and_eq_false_iff]
    omega
  have hminus : c ≠ '-' := fun e => not_mem_of_digits [c] '-' (by simpa using hc) (by decide)
    (by simp [e])
  have hplus : c ≠ '+' := fun e => not_mem_of_digits [c] '+' (by simpa using hc) (by decide)
    (by simp [e])
  have htw : (c :: r).takeWhile isdigit = c :: r := List.takeWhile_eq_self_iff.2 hd
  have hv : digitsValue (c :: r) < 2 ^ 31 := by
    have hlt : digitsValue (c :: r) < 10 ^ (c :: r).length := by
      simpa [digitsValue] using digitsValue_foldl_lt (c :: r) hd 0
    have hpow : 10 ^ (c :: r).length ≤ 10 ^ 9 := Nat.pow_le_pow_right (by norm_num) hlen
    have h9 : (10 : Nat) ^ 9 < 2 ^ 31 := by norm_num
    omega
  have hboth : -(2 ^ 31 : Int) ≤ (digitsValue (c :: r) : Int) ∧
      (digitsValue (c :: r) : Int) < 2 ^ 31 := by
    constructor
    · have : (0 : Int) ≤ (digitsValue (c :: r) : Int) := Int.natCast_nonneg _
      omega
    · exact_mod_cast hv
  unfold stoi
  simp only [List.dropWhile_cons, hsp, Bool.false_eq_true, if_false, List.head?_cons,
    Option.some.injEq, hminus, hplus, or_self, htw, reduceCtorEq, decide_False, hboth,
    and_self, if_true]

theorem rawFields_quoted_eq (line : Str) (f l : Nat) (hf : findChar '"' line = some f)
    (hl : find_last_of '"' line = some l) :
    rawFields line =
      if l + 2 > line.length then none
      else some (line.takeWhile (· != ','),
        (line.drop (f + 1)).take (sizeSub (sizeSub l f) 1), line.drop (l + 2)) := by
  have hflt := findChar_some '"' line f hf
  unfold rawFields
  simp only [hf, hl, substr, substrFrom, show ¬ (f + 1 > line.length) by omega, if_false,
    getField_fst]
  split_ifs <;> rfl

theorem rawFields_unquoted_eq (line : Str) (hq : '"' ∉ line) :
    rawFields line =
      some (line.takeWhile (· != ','),
        (getField (getField line).2).1, (getField (getField (getField line).2).2).1) := by
  unfold rawFields
  simp only [(findChar_eq_none_iff '"' line).2 hq, getField_fst]

theorem rawFields_unquoted (a b rest : Str)
    (hq : '"' ∉ a ++ ',' :: (b ++ ',' :: rest)) (ha : ',' ∉ a) (hb : ',' ∉ b) :
    rawFields (a ++ ',' :: (b ++ ',' :: rest)) = some (a, b, rest.takeWhile (· != ',')) := by
  rw [rawFields_unquoted_eq _ hq, takeWhile_ne_append ',' a _ ha, getField_sep a _ ha,
    getField_sep b rest hb, getField_fst]

theorem rawFields_quoted (id t g : Str) (hc : ',' ∉ id) (hq : '"' ∉ id) (hg : '"' ∉ g) :
    rawFields (id ++ ',' :: '"' :: (t ++ '"' :: ',' :: g)) = some (id, t, g) := by
  have hfirst : findChar '"' (id ++ ',' :: '"' :: (t ++ '"' :: ',' :: g))
      = some (id.length + 1) := by
    have h := findChar_append '"' (id ++ [',']) (t ++ '"' :: ',' :: g)
      (by simpa using hq)
    simpa using h
  have hlast : find_last_of '"' (id ++ ',' :: '"' :: (t ++ '"' :: ',' :: g))
      = some (id.length + (t.length + 2)) := by
    have h := find_last_of_append '"' (id ++ ',' :: '"' :: t) (',' :: g) (by simpa using hg)
    simpa using h
  have hs : sizeSub (sizeSub (id.length + (t.length + 2)) (id.length + 1)) 1 = t.length := by
    simp only [sizeSub]
    split_ifs <;> omega
  have hB : ((id ++ ',' :: '"' :: (t ++ '"' :: ',' :: g)).drop (id.length + 1 + 1)).take
      t.length = t := by
    have h1 : id ++ ',' :: '"' :: (t ++ '"' :: ',' :: g)
        = (id ++ [',', '"']) ++ (t ++ '"' :: ',' :: g) := by simp
    rw [h1, List.drop_left' (by simp), List.take_left]
  have hC : (id ++ ',' :: '"' :: (t ++ '"' :: ',' :: g)).drop (id.length + (t.length + 2) + 2)
      = g := by
    have h1 : id ++ ',' :: '"' :: (t ++ '"' :: ',' :: g)
        = (id ++ ',' :: '"' :: (t ++ ['"', ','])) ++ g := by simp
    rw [h1, List.drop_left' (by simp; omega)]
  rw [rawFields_quoted_eq _ _ _ hfirst hlast, if_neg (by simp; omega), hs,
    takeWhile_ne_append ',' id _ hc, hB, hC]

theorem parseLine_of_rawFields (line idStr title genresStr : Str)
    (hr : rawFields line = some (idStr, title, genresStr)) :
    parseLine line =
      match stoi idStr, extractYear title with
      | some n, some (y, t1) => some ⟨n, t1, y, split genresStr '|'⟩
      | _, _ => none := by
  unfold parseLine
  rw [hr]
  simp only []
  cases stoi idStr <;> cases extractYear title <;> rfl

theorem parseLine_some (line : Str) (m : Movie) (h : parseLine line = some m) :
    ∃ idStr title genresStr, rawFields line = some (idStr, title, genresStr) ∧
      stoi idStr = some m.movieId ∧ m.genres = split genresStr '|' := by
  cases hr : rawFields line with
  | none => simp [parseLine, hr] at h
  | some r =>
    obtain ⟨idStr, title, genresStr⟩ := r
    rw [parseLine_of_rawFields line idStr title genresStr hr] at h
    cases hs : stoi idStr <;> cases he : extractYear title <;> simp [hs, he] at h
    subst h
    exact ⟨idStr, title, genresStr, rfl, hs, rfl⟩

theorem splitRec_eq_nil_iff (d : Char) (s : Str) : splitRec d s = [] ↔ s = [] := by
  cases s with
  | nil => simp [splitRec]
  | cons c cs => by_cases h : c = d <;> cases hs : splitRec d cs <;> simp [splitRec, h, hs]

theorem splitRec_unfold (d : Char) (s : Str) (hne : s ≠ []) :
    splitRec d s = s.takeWhile (· != d) :: splitRec d ((s.dropWhile (· != d)).drop 1) := by
  induction s with
  | nil => exact absurd rfl hne
  | cons c cs ih =>
    by_cases h : c = d
    · simp [splitRec, h]
    · by_cases hcs : cs = []
      · simp [splitRec, h, hcs]
      · rw [splitRec, if_neg h, ih hcs]
        simp [List.takeWhile_cons, List.dropWhile_cons, h]

theorem splitLoop_eq_splitRec (d : Char) :
    ∀ (fuel : Nat) (s : Str), s.length < fuel → splitLoop d fuel s = splitRec d s := by
  intro fuel
  induction fuel with
  | zero => intro s h; omega
  | succ n ih =>
    intro s h
    by_cases hne : s = []
    · simp [splitLoop, getline, splitRec, hne]
    · have h1 : (s.dropWhile (· != d)).length ≤ s.length := (List.dropWhile_sublist _).length_le
      have h2 : 0 < s.length := List.length_pos.2 hne
      simp only [splitLoop, getline, hne, if_false]
      rw [ih _ (by simp only [List.length_drop]; omega), ← splitRec_unfold d s hne]

theorem split_eq_splitRec (s : Str) (d : Char) : split s d = splitRec d s :=
  splitLoop_eq_splitRec d (s.length + 1) s (by omega)

theorem joinWith_cons_cons (d c : Char) (t : Str) (ts : List Str) :
    joinWith d ((c :: t) :: ts) = c :: joinWith d (t :: ts) := by
  cases ts <;> simp [joinWith]

theorem joinWith_splitRec (d : Char) (s : Str) :
    joinWith d (splitRec d s) = if s.getLast? = some d then s.dropLast else s := by
  induction s with
  | nil => simp [splitRec, joinWith]
  | cons c cs ih =>
    cases cs with
    | nil => by_cases h : c = d <;> simp [splitRec, joinWith, h]
    | cons x xs =>
      obtain ⟨t, ts, hts⟩ := List.exists_cons_of_ne_nil
        (mt (splitRec_eq_nil_iff d (x :: xs)).1 (by simp))
      rw [List.getLast?_cons_cons, List.dropLast_cons₂]
      by_cases h : c = d
      · rw [splitRec, if_pos h, hts, joinWith, ← hts, ih, h]
        split_ifs <;> simp
      · rw [splitRec, if_neg h, hts]
        simp only []
        rw [joinWith_cons_cons, ← hts, ih]
        split_ifs <;> rfl

theorem not_mem_of_mem_splitRec (d : Char) (s : Str) :
    ∀ t ∈ splitRec d s, d ∉ t := by
  induction s with
  | nil => simp [splitRec]
  | cons c cs ih =>
    by_cases h : c = d
    · simpa [splitRec, h] using ih
    · cases hs : splitRec d cs with
      | nil => simpa [splitRec, h, hs] using fun e : d = c => h e.symm
      | cons u us =>
        rw [hs] at ih
        have hu := ih u (by simp)
        simp only [splitRec, h, hs, if_false, List.mem_cons, forall_eq_or_imp, not_or]
        exact ⟨⟨fun e => h e.symm, hu⟩, fun t ht => ih t (by simp [ht])⟩

theorem splitRec_nonempty_iff (d : Char) (s : Str) :
    ((∀ t ∈ (splitRec d s).tail, t ≠ []) ↔ s.Chain' (fun x y => x = d → ¬ y = d)) ∧
    ((∀ t ∈ splitRec d s, t ≠ []) ↔
      s.head? ≠ some d ∧ s.Chain' (fun x y => x = d → ¬ y = d)) := by
  induction s with
  | nil => simp [splitRec]
  | cons c cs ih =>
    obtain ⟨ihA, ihB⟩ := ih
    by_cases h : c = d
    · subst h
      have hhead : (∀ y : Char, cs.head? = some y → ¬ y = c) ↔ ¬ cs.head? = some c := by
        cases cs <;> simp [eq_comm]
      simp [splitRec, ihB, List.chain'_cons', hhead]
    · cases hs : splitRec d cs with
      | nil =>
        rw [hs] at ihA
        simpa [splitRec, h, hs, List.chain'_cons'] using ihA.1 (by simp)
      | cons u us =>
        rw [hs] at ihA
        simpa [splitRec, h, hs, List.chain'_cons'] using ihA

theorem genres_of_parseLine (line idStr title genresStr : Str) (m : Movie)
    (hraw : rawFields line = some (idStr, title, genresStr))
    (hp : parseLine line = some m) : m.genres = splitRec '|' genresStr := by
  obtain ⟨a, b, c, hr, _, hg⟩ := parseLine_some line m hp
  rw [hraw] at hr
  simp only [Option.some.injEq, Prod.mk.injEq] at hr
  rw [hg, ← hr.2.2, split_eq_splitRec]

theorem drop_eq_cons_of_getElem? (s : Str) (i : Nat) (x : Char) (h : s[i]? = some x) :
    s.drop i = x :: s.drop (i + 1) := by
  obtain ⟨hlt, rfl⟩ := List.getElem?_eq_some.1 h
  exact List.drop_eq_getElem_cons hlt

/-! ## Lemmas on `capitalizeWords` and the set of genres -/

theorem toLower_capitalizeLoop (s : Str) :
    ∀ flag : Bool, toLower (capitalizeLoop flag s) = toLower s := by
  induction s with
  | nil => intro flag; rfl
  | cons c cs ih =>
    intro flag
    simp only [toLower] at ih
    unfold capitalizeLoop
    split_ifs <;> simp [toLower, ih, tolower_toupper, tolower_tolower]

theorem setInsert_spec (g : Str) (s : List Str) (hs : s.Nodup) :
    (setInsert g s).Nodup ∧ ∀ x, x ∈ setInsert g s ↔ x = g ∨ x ∈ s := by
  unfold setInsert
  split_ifs with h
  · exact ⟨hs, fun x => ⟨Or.inr, fun hx => hx.elim (fun e => e ▸ h) id⟩⟩
  · refine ⟨List.nodup_append.2 ⟨hs, List.nodup_singleton g, ?_⟩, fun x => by simp [or_comm]⟩
    intro x hx hx2
    exact h (List.mem_singleton.1 hx2 ▸ hx)

theorem insertGenres_spec (gs : List Str) :
    ∀ s : List Str, s.Nodup →
      (insertGenres s gs).Nodup ∧ ∀ x, x ∈ insertGenres s gs ↔ x ∈ s ∨ x ∈ gs := by
  induction gs with
  | nil => intro s hs; simp [insertGenres, hs]
  | cons g rest ih =>
    intro s hs
    obtain ⟨h0, h00⟩ := setInsert_spec g s hs
    obtain ⟨h1, h2⟩ := ih (setInsert g s) h0
    refine ⟨h1, fun x => ?_⟩
    rw [insertGenres, h2 x, h00 x, List.mem_cons]
    tauto

theorem collectGenres_spec (ms : List Movie) :
    ∀ s : List Str, s.Nodup →
      (collectGenres s ms).Nodup ∧
        ∀ x, x ∈ collectGenres s ms ↔ x ∈ s ∨ ∃ m ∈ ms, x ∈ m.genres := by
  induction ms with
  | nil => intro s hs; simp [collectGenres, hs]
  | cons m rest ih =>
    intro s hs
    obtain ⟨h1, h2⟩ := insertGenres_spec m.genres s hs
    obtain ⟨h3, h4⟩ := ih (insertGenres s m.genres) h1
    refine ⟨h3, fun x => ?_⟩
    rw [collectGenres, h4 x, h2 x]
    simp only [List.mem_cons, exists_eq_or_imp]
    tauto

/-! ## The claims -/

/-- C1: a search without an id returns exactly the first ten (or all, when fewer than
ten exist) of the records that match, in file order; the result never has more than
ten elements and has exactly ten when at least ten records match. -/
theorem search_without_id_first_ten (movies : List Movie) (f : Filters) :
    runFilters f movies = (movies.filter (matchesMovie f)).take 10 ∧
    (runFilters f movies).length ≤ 10 ∧
    (10 ≤ (movies.filter (matchesMovie f)).length → (runFilters f movies).length = 10) ∧
    ((movies.filter (matchesMovie f)).length ≤ 10 →
      runFilters f movies = movies.filter (matchesMovie f)) ∧
    (∀ cin : List Str, search movies ([] :: cin) =
      some ((movies.filter (matchesMovie (readFilters cin))).take 10)) := by
  have h := runFilters_eq_take f movies
  refine ⟨h, by rw [h, List.length_take]; omega, fun h10 => by rw [h, List.length_take]; omega,
    fun h10 => by rw [h, List.take_of_length_le h10],
    fun cin => by rw [search_no_id, runFilters_eq_take]⟩

/-- C2: in a search without an id, a record scanned while fewer than ten rows have
been printed is printed if and only if all present predicates succeed (keyword empty
or a contiguous substring of the lowercased title, year filter absent or equal, genre
list empty or every requested genre the lowercase of a genre of the record), and the
three checks give the same decision in each of the six orders. -/
theorem match_iff_all_present_predicates (f : Filters) (pre post : List Movie) (m : Movie)
    (h : (runFilters f pre).length < 10) :
    (matchesMovie f m = true ↔ predicatesSucceed f m) ∧
    (predicatesSucceed f m → ∃ tail, tail.Sublist post ∧
      runFilters f (pre ++ m :: post) = runFilters f pre ++ m :: tail) ∧
    (¬ predicatesSucceed f m → ∃ tail, tail.Sublist post ∧
      runFilters f (pre ++ m :: post) = runFilters f pre ++ tail) ∧
    (matchesMovie f m = genreCheck f m (titleCheck f m (yearCheck f m true)) ∧
     matchesMovie f m = yearCheck f m (genreCheck f m (titleCheck f m true)) ∧
     matchesMovie f m = yearCheck f m (titleCheck f m (genreCheck f m true)) ∧
     matchesMovie f m = titleCheck f m (yearCheck f m (genreCheck f m true)) ∧
     matchesMovie f m = titleCheck f m (genreCheck f m (yearCheck f m true))) := by
  have hlen : (pre.filter (matchesMovie f)).length < 10 := by
    by_contra hge
    rw [runFilters_eq_take, List.length_take] at h
    omega
  have hpre : runFilters f pre = pre.filter (matchesMovie f) := by
    rw [runFilters_eq_take]
    exact List.take_of_length_le (by omega)
  have hsplit : ∀ l : List Movie,
      ((pre.filter (matchesMovie f)) ++ l).take 10 =
        pre.filter (matchesMovie f) ++ l.take (10 - (pre.filter (matchesMovie f)).length) := by
    intro l
    rw [List.take_append_eq_append_take, List.take_of_length_le (by omega)]
  refine ⟨matchesMovie_iff f m, ?_, ?_, ?_⟩
  · intro hp
    have hm : matchesMovie f m = true := (matchesMovie_iff f m).2 hp
    refine ⟨(post.filter (matchesMovie f)).take
      (10 - (pre.filter (matchesMovie f)).length - 1), ?_, ?_⟩
    · exact (List.take_sublist _ _).trans (List.filter_sublist _)
    · rw [runFilters_eq_take, hpre, List.filter_append, List.filter_cons_of_pos hm, hsplit]
      have h1 : 10 - (pre.filter (matchesMovie f)).length =
          (10 - (pre.filter (matchesMovie f)).length - 1) + 1 := by omega
      rw [h1, List.take_succ_cons]
      simp
  · intro hp
    have hm : ¬ matchesMovie f m = true := fun hx => hp ((matchesMovie_iff f m).1 hx)
    refine ⟨(post.filter (matchesMovie f)).take
      (10 - (pre.filter (matchesMovie f)).length), ?_, ?_⟩
    · exact (List.take_sublist _ _).trans (List.filter_sublist _)
    · rw [runFilters_eq_take, hpre, List.filter_append, List.filter_cons_of_neg hm, hsplit]
  · unfold matchesMovie genreCheck yearCheck titleCheck
    refine ⟨?_, ?_, ?_, ?_, ?_⟩ <;> (split_ifs <;> rfl)

/-- Witness of C2: the record `Toy Story` of 1995, scanned first, under the filters
keyword `toy`, genre `comedy`, year 1995. -/
theorem match_iff_all_present_predicates_witness :
    (runFilters ⟨"toy".toList, ["comedy".toList], 1995⟩ []).length < 10 ∧
    ∃ tail, tail.Sublist [] ∧
      runFilters ⟨"toy".toList, ["comedy".toList], 1995⟩
        ([] ++ (⟨1, "Toy Story".toList, 1995, ["Animation".toList, "Comedy".toList]⟩ : Movie)
          :: []) =
        runFilters ⟨"toy".toList, ["comedy".toList], 1995⟩ [] ++
          (⟨1, "Toy Story".toList, 1995, ["Animation".toList, "Comedy".toList]⟩ : Movie)
            :: tail :=
  ⟨by decide,
   (match_iff_all_present_predicates ⟨"toy".toList, ["comedy".toList], 1995⟩ [] []
      ⟨1, "Toy Story".toList, 1995, ["Animation".toList, "Comedy".toList]⟩ (by decide)).2.1
      ((matchesMovie_iff _ _).1 (by decide))⟩

/-- C3: a search whose id is set returns, when some record has that id, exactly the
one record `byId` gives, the record at position `idIndex[id]`, whatever follows in
the input; when no record has that id the result is empty and nothing is thrown. -/
theorem search_by_id (movies : List Movie) (idInput : Str) (id : Int) (rest : List Str)
    (h : stoi idInput = some id) :
    ((∃ m ∈ movies, m.movieId = id) →
      ∃ idx m, tableFind id (buildIdIndex movies) = some idx ∧ movies[idx]? = some m ∧
        m.movieId = id ∧ byId movies id = some m ∧
        search movies (idInput :: rest) = some [m]) ∧
    ((∀ m ∈ movies, m.movieId ≠ id) →
      byId movies id = none ∧ search movies (idInput :: rest) = some []) := by
  have hne : idInput ≠ [] := by
    rintro rfl
    simp [stoi] at h
  constructor
  · intro hex
    cases hl : lastPos id movies with
    | none =>
      obtain ⟨m, hm, hid⟩ := hex
      exact absurd hid ((lastPos_eq_none_iff id movies).1 hl m hm)
    | some idx =>
      obtain ⟨⟨m, hget, hid⟩, _⟩ := (lastPos_eq_some_iff id movies idx).1 hl
      have hfind : tableFind id (buildIdIndex movies) = some idx := by
        rw [tableFind_buildIdIndex, hl]
      refine ⟨idx, m, hfind, hget, hid, ?_, ?_⟩
      · simp [byId, hfind, hget]
      · simp [search, getlineCin, hne, h, hfind, hget]
  · intro hno
    have hfind : tableFind id (buildIdIndex movies) = none := by
      rw [tableFind_buildIdIndex]
      exact (lastPos_eq_none_iff id movies).2 hno
    constructor
    · simp [byId, hfind]
    · simp [search, getlineCin, hne, h, hfind]

/-- Witness of C3: two records carry the id 1; the typed id `1` is followed by lines
that would be a keyword, a genre and a year. -/
theorem search_by_id_witness :
    stoi "1".toList = some 1 ∧
    ∃ idx m, tableFind 1 (buildIdIndex
        [⟨1, "A".toList, -1, []⟩, ⟨1, "B".toList, 2000, ["Drama".toList]⟩]) = some idx ∧
      [(⟨1, "A".toList, -1, []⟩ : Movie), ⟨1, "B".toList, 2000, ["Drama".toList]⟩][idx]? = some m ∧
      m.movieId = 1 ∧
      byId [⟨1, "A".toList, -1, []⟩, ⟨1, "B".toList, 2000, ["Drama".toList]⟩] 1 = some m ∧
      search [⟨1, "A".toList, -1, []⟩, ⟨1, "B".toList, 2000, ["Drama".toList]⟩]
        ("1".toList :: ["zzz".toList, "horror".toList, "done".toList, "1900".toList])
        = some [m] :=
  ⟨by decide,
   (search_by_id [⟨1, "A".toList, -1, []⟩, ⟨1, "B".toList, 2000, ["Drama".toList]⟩]
      "1".toList 1 ["zzz".toList, "horror".toList, "done".toList, "1900".toList]
      (by decide)).1 ⟨⟨1, "A".toList, -1, []⟩, by simp, rfl⟩⟩

/-- C4 as stated fails: the year `-1` is a numeric value that `std::stoi` accepts, the
filter variable then holds the value that means "no filter", and a record whose year
is unknown is printed. -/
theorem year_filter_minus_one_matches_unknown :
    stoi "-1".toList = some (-1) ∧
    readFilters [[], [], "-1".toList] = ⟨[], [], -1⟩ ∧
    search [⟨7, "Untitled".toList, -1, []⟩] [[], [], [], "-1".toList]
      = some [⟨7, "Untitled".toList, -1, []⟩] := by
  decide

/-- C4, amended: under a year filter other than `-1` every record a search without an
id returns has exactly that year, so none has the unknown year `-1`; a record of
unknown year appears only when the filter variable is `-1`; a typed year that
`std::stoi` accepts is the value of the filter variable. -/
theorem year_filter_excludes_unknown (movies : List Movie) (f : Filters)
    (h : f.yearFilter ≠ -1) :
    (∀ m ∈ runFilters f movies, m.year = f.yearFilter ∧ m.year ≠ -1) ∧
    (∀ (g : Filters) (m : Movie), m ∈ runFilters g movies → m.year = -1 → g.yearFilter = -1) ∧
    (∀ (yearInput : Str) (y : Int), stoi yearInput = some y → readYear yearInput = y) ∧
    (∀ cin : List Str, readFilters cin = f →
      search movies ([] :: cin) = some (runFilters f movies)) := by
  have key : ∀ (g : Filters) (m : Movie), m ∈ runFilters g movies →
      g.yearFilter = -1 ∨ m.year = g.yearFilter := by
    intro g m hm
    exact ((matchesMovie_iff g m).1 (mem_runFilters g movies m hm).2).2.1
  refine ⟨?_, ?_, ?_, ?_⟩
  · intro m hm
    rcases key f m hm with h1 | h1
    · exact absurd h1 h
    · exact ⟨h1, by rw [h1]; exact h⟩
  · intro g m hm hy
    rcases key g m hm with h1 | h1
    · exact h1
    · rw [← h1, hy]
  · intro yearInput y hy
    have hne : yearInput ≠ [] := by
      rintro rfl
      simp [stoi] at hy
    simp [readYear, hne, hy]
  · intro cin hcin
    rw [search_no_id, hcin]

/-- Witness of C4: the year line `1995` after an empty keyword and an empty genre list. -/
theorem year_filter_excludes_unknown_witness :
    (readFilters [[], [], "1995".toList]).yearFilter ≠ -1 ∧
    ∀ m ∈ runFilters (readFilters [[], [], "1995".toList])
        [⟨1, "A".toList, -1, []⟩, ⟨2, "B".toList, 1995, []⟩],
      m.year = (readFilters [[], [], "1995".toList]).yearFilter ∧ m.year ≠ -1 :=
  ⟨by decide,
   (year_filter_excludes_unknown [⟨1, "A".toList, -1, []⟩, ⟨2, "B".toList, 1995, []⟩]
      (readFilters [[], [], "1995".toList]) (by decide)).1⟩

/-- C5: under a non-empty list of requested lowercased genres every record a search
returns has, for each requested genre, a genre equal to it up to letter case; so when
a requested genre occurs in no record the result is empty. The genres read from the
input are always lowercased. -/
theorem genre_filter_all_requested (movies : List Movie) (f : Filters)
    (hne : f.filterGenres ≠ []) (hlow : ∀ g ∈ f.filterGenres, toLower g = g) :
    (∀ m ∈ runFilters f movies, ∀ g ∈ f.filterGenres,
      ∃ mg ∈ m.genres, toLower mg = toLower g) ∧
    ((∃ g ∈ f.filterGenres, ∀ m ∈ movies, ∀ mg ∈ m.genres, toLower mg ≠ toLower g) →
      runFilters f movies = []) ∧
    (∀ cin : List Str, ∀ g ∈ (readFilters cin).filterGenres, toLower g = g) ∧
    (∀ cin : List Str, readFilters cin = f →
      search movies ([] :: cin) = some (runFilters f movies)) := by
  have key : ∀ m ∈ runFilters f movies, ∀ g ∈ f.filterGenres,
      ∃ mg ∈ m.genres, toLower mg = toLower g := by
    intro m hm g hg
    rcases ((matchesMovie_iff f m).1 (mem_runFilters f movies m hm).2).2.2 with h1 | h1
    · exact absurd h1 hne
    · obtain ⟨mg, hmg, heq⟩ := h1 g hg
      exact ⟨mg, hmg, by rw [heq, hlow g hg]⟩
  refine ⟨key, ?_, ?_, ?_⟩
  · rintro ⟨g, hg, hnone⟩
    apply List.eq_nil_iff_forall_not_mem.2
    intro m hm
    obtain ⟨mg, hmg, heq⟩ := key m hm g hg
    exact hnone m (mem_runFilters f movies m hm).1 mg hmg heq
  · intro cin
    simp only [readFilters]
    exact readGenres_lowercased _
  · intro cin hcin
    rw [search_no_id, hcin]

/-- Witness of C5: the requested genres `comedy` and `nonexistentgenre` against a
record of genre `Comedy`. -/
theorem genre_filter_all_requested_witness :
    (["comedy".toList, "nonexistentgenre".toList] : List Str) ≠ [] ∧
    runFilters ⟨[], ["comedy".toList, "nonexistentgenre".toList], -1⟩
      [⟨1, "Toy Story".toList, 1995, ["Animation".toList, "Comedy".toList]⟩] = [] :=
  ⟨by decide,
   (genre_filter_all_requested
      [⟨1, "Toy Story".toList, 1995, ["Animation".toList, "Comedy".toList]⟩]
      ⟨[], ["comedy".toList, "nonexistentgenre".toList], -1⟩ (by decide) (by decide)).2.1
      ⟨"nonexistentgenre".toList, by decide, by decide⟩⟩

/-- C6 as stated fails: on a line without quotes the genre field ends at the third
comma, so the genres are not the split of all the text after the second comma. -/
theorem unquoted_genres_cut_at_third_comma :
    '"' ∉ "1,T,Comedy,Drama|War".toList ∧
    stoi "1".toList = some 1 ∧
    parseLine "1,T,Comedy,Drama|War".toList
      = some ⟨1, "T".toList, -1, ["Comedy".toList]⟩ ∧
    split "Comedy,Drama|War".toList '|' = ["Comedy,Drama".toList, "War".toList] := by
  decide

/-- C6, amended: for a line without quotes, with at least two commas and an id that
parses, the genres of the record are the split at `|` of the text between the second
comma and the third comma (or the end of the line); when no comma follows the second
one this is the split of the whole remainder of the line. -/
theorem unquoted_genres_third_field (a b rest : Str) (n : Int)
    (hq : '"' ∉ a ++ ',' :: (b ++ ',' :: rest)) (ha : ',' ∉ a) (hb : ',' ∉ b)
    (hid : stoi a = some n) :
    ∃ mv, parseLine (a ++ ',' :: (b ++ ',' :: rest)) = some mv ∧ mv.movieId = n ∧
      mv.genres = split (rest.takeWhile (· != ',')) '|' ∧
      (',' ∉ rest → mv.genres = split rest '|') := by
  obtain ⟨⟨y, t1⟩, hyear⟩ := extractYear_isSome b
  refine ⟨⟨n, t1, y, split (rest.takeWhile (· != ',')) '|'⟩, ?_, rfl, rfl, ?_⟩
  · unfold parseLine
    rw [rawFields_unquoted a b rest hq ha hb]
    simp only [hid, hyear]
  · intro hrest
    simp only [takeWhile_ne_self ',' rest hrest]

/-- Witness of C6: the line `1,Toy Story (1995),Animation|Comedy`. -/
theorem unquoted_genres_third_field_witness :
    ∃ mv, parseLine ("1".toList ++ ',' :: ("Toy Story (1995)".toList ++
        ',' :: "Animation|Comedy".toList)) = some mv ∧ mv.movieId = 1 ∧
      mv.genres = split ("Animation|Comedy".toList.takeWhile (· != ',')) '|' ∧
      (',' ∉ "Animation|Comedy".toList → mv.genres = split "Animation|Comedy".toList '|') :=
  unquoted_genres_third_field "1".toList "Toy Story (1995)".toList "Animation|Comedy".toList 1
    (by decide) (by decide) (by decide) (by decide)

/-- C7: on a line `id,"t",g` whose id has no comma and no quote and parses, and whose
`g` has no quote, the title handed to `extractYear` is exactly `t`, the genre field is
exactly `g`, and the record has the genres `split g`; the line
`2,"Grumpier Old Men, The",Comedy|Romance` gives id 2, that title, year unknown and
the genres `Comedy`, `Romance`. -/
theorem quoted_title_between_quotes (id t g : Str) (n : Int)
    (hc : ',' ∉ id) (hq : '"' ∉ id) (hg : '"' ∉ g) (hid : stoi id = some n) :
    rawFields (id ++ ',' :: '"' :: (t ++ '"' :: ',' :: g)) = some (id, t, g) ∧
    (∃ y t1, extractYear t = some (y, t1) ∧
      parseLine (id ++ ',' :: '"' :: (t ++ '"' :: ',' :: g))
        = some ⟨n, t1, y, split g '|'⟩) ∧
    parseLine ("2".toList ++ ',' :: '"' :: ("Grumpier Old Men, The".toList ++
        '"' :: ',' :: "Comedy|Romance".toList))
      = some ⟨2, "Grumpier Old Men, The".toList, -1,
          ["Comedy".toList, "Romance".toList]⟩ := by
  have hraw := rawFields_quoted id t g hc hq hg
  obtain ⟨⟨y, t1⟩, hyear⟩ := extractYear_isSome t
  refine ⟨hraw, ⟨y, t1, hyear, ?_⟩, by decide⟩
  rw [parseLine_of_rawFields _ _ _ _ hraw, hid, hyear]

/-- Witness of C7: the line `7,"Sabrina, The (1995)",Comedy,Romance`. -/
theorem quoted_title_between_quotes_witness :
    rawFields ("7".toList ++ ',' :: '"' :: ("Sabrina, The (1995)".toList ++
        '"' :: ',' :: "Comedy,Romance".toList))
      = some ("7".toList, "Sabrina, The (1995)".toList, "Comedy,Romance".toList) :=
  (quoted_title_between_quotes "7".toList "Sabrina, The (1995)".toList
    "Comedy,Romance".toList 7 (by decide) (by decide) (by decide) (by decide)).1

/-- C8: a line `i,t (d),g` with `i` and `d` of one to nine digits and `t`, `g` free of
commas and quotes parses to the record with id the value of `i`, title `t`, year the
value of `d` and genres `split g`; `1,Toy Story (1995),Animation|Comedy` gives
id 1, title `Toy Story`, year 1995, genres `Animation`, `Comedy`. -/
theorem parse_line_with_year (i t d g : Str)
    (hi : i ≠ []) (hid : ∀ c ∈ i, isdigit c = true) (hil : i.length ≤ 9)
    (hd : d ≠ []) (hdd : ∀ c ∈ d, isdigit c = true) (hdl : d.length ≤ 9)
    (ht1 : ',' ∉ t) (ht2 : '"' ∉ t) (hg1 : ',' ∉ g) (hg2 : '"' ∉ g) :
    parseLine (i ++ ',' :: (t ++ ' ' :: '(' :: (d ++ ')' :: ',' :: g)))
      = some ⟨digitsValue i, t, digitsValue d, split g '|'⟩ ∧
    parseLine "1,Toy Story (1995),Animation|Comedy".toList
      = some ⟨1, "Toy Story".toList, 1995, ["Animation".toList, "Comedy".toList]⟩ := by
  refine ⟨?_, by decide⟩
  have hiq : '"' ∉ i := not_mem_of_digits i '"' hid (by decide)
  have hic : ',' ∉ i := not_mem_of_digits i ',' hid (by decide)
  have hdq : '"' ∉ d := not_mem_of_digits d '"' hdd (by decide)
  have hdc : ',' ∉ d := not_mem_of_digits d ',' hdd (by decide)
  have hdo : '(' ∉ d := not_mem_of_digits d '(' hdd (by decide)
  have ho : find_last_of '(' (t ++ ' ' :: '(' :: (d ++ [')'])) = some (t.length + 1) := by
    simpa using find_last_of_append '(' (t ++ [' ']) (d ++ [')']) (by simpa using hdo)
  have hc : find_last_of ')' (t ++ ' ' :: '(' :: (d ++ [')']))
      = some (t.length + (d.length + 2)) := by
    simpa using find_last_of_append ')' (t ++ ' ' :: '(' :: d) [] (by simp)
  have hmid : ((t ++ ' ' :: '(' :: (d ++ [')'])).drop (t.length + 1 + 1)).take
      (t.length + (d.length + 2) - (t.length + 1) - 1) = d := by
    rw [show t ++ ' ' :: '(' :: (d ++ [')']) = (t ++ [' ', '(']) ++ (d ++ [')']) by simp,
      List.drop_left' (by simp),
      show t.length + (d.length + 2) - (t.length + 1) - 1 = d.length by omega, List.take_left]
  have hyear : extractYear (t ++ ' ' :: '(' :: (d ++ [')']))
      = some ((digitsValue d : Int), t) := by
    rw [extractYear_of_order _ _ _ ho hc (by omega), hmid, stoi_digits d hd hdd hdl]
    simp [sizeSub]
  rw [show i ++ ',' :: (t ++ ' ' :: '(' :: (d ++ ')' :: ',' :: g))
      = i ++ ',' :: ((t ++ ' ' :: '(' :: (d ++ [')'])) ++ ',' :: g) by simp,
    parseLine_of_rawFields _ _ _ _ (rawFields_unquoted i _ g (by simp [hiq, ht2, hdq, hg2])
      hic (by simp [ht1, hdc])),
    stoi_digits i hi hid hil, hyear, takeWhile_ne_self ',' g hg1]

/-- Witness of C8: the line `2,Heat (1995),Action|Crime|Thriller`. -/
theorem parse_line_with_year_witness :
    parseLine ("2".toList ++ ',' :: ("Heat".toList ++ ' ' :: '(' :: ("1995".toList ++
        ')' :: ',' :: "Action|Crime|Thriller".toList)))
      = some ⟨digitsValue "2".toList, "Heat".toList, digitsValue "1995".toList,
          split "Action|Crime|Thriller".toList '|'⟩ :=
  (parse_line_with_year "2".toList "Heat".toList "1995".toList
    "Action|Crime|Thriller".toList (by decide) (by decide) (by decide) (by decide)
    (by decide) (by decide) (by decide) (by decide) (by decide) (by decide)).1

/-- C9 as stated fails: in `Movie(1995)` the last `)` follows the last `(` and the text
between them parses, yet the stored title `Movi` is not the part before a space, and
in `(1995)` the stored title still holds the parenthesis. -/
theorem extractYear_without_leading_space :
    find_last_of '(' "Movie(1995)".toList = some 5 ∧
    find_last_of ')' "Movie(1995)".toList = some 10 ∧
    stoi "1995".toList = some 1995 ∧
    extractYear "Movie(1995)".toList = some (1995, "Movi".toList) ∧
    extractYear "(1995)".toList = some (1995, "(1995)".toList) := by
  decide

/-- C9, amended: for a title whose last `(` comes right after a space, whose last `)`
comes after that `(` and whose text between them is accepted by `std::stoi`,
`extractYear` returns that integer and leaves as title the part of the original
before that space. -/
theorem extractYear_strips_year_suffix (title : Str) (o c : Nat) (y : Int)
    (ho : find_last_of '(' title = some o) (hc : find_last_of ')' title = some c)
    (hoc : o < c) (hy : stoi ((title.drop (o + 1)).take (c - o - 1)) = some y)
    (hpos : 0 < o) (hsp : title[o - 1]? = some ' ') :
    extractYear title = some (y, title.take (o - 1)) ∧
    title = title.take (o - 1) ++ ' ' :: '(' :: title.drop (o + 1) := by
  have hs : sizeSub o 1 = o - 1 := by
    simp only [sizeSub]
    split_ifs <;> omega
  refine ⟨by rw [extractYear_of_order title o c ho hc hoc, hy, hs], ?_⟩
  have h1 := drop_eq_cons_of_getElem? title (o - 1) ' ' hsp
  have h2 := drop_eq_cons_of_getElem? title o '(' (find_last_of_getElem '(' title o ho).1
  rw [show o - 1 + 1 = o by omega] at h1
  rw [← h2, ← h1, List.take_append_drop]

/-- Witness of C9: the title `Toy Story (1995)`. -/
theorem extractYear_strips_year_suffix_witness :
    extractYear "Toy Story (1995)".toList
      = some (1995, "Toy Story (1995)".toList.take (10 - 1)) ∧
    "Toy Story (1995)".toList = "Toy Story (1995)".toList.take (10 - 1) ++
      ' ' :: '(' :: "Toy Story (1995)".toList.drop (10 + 1) :=
  extractYear_strips_year_suffix "Toy Story (1995)".toList 10 15 1995
    (by decide) (by decide) (by decide) (by decide) (by decide) (by decide)

/-- C10: the keys of the identifier index are exactly the distinct ids of the record
list, one entry per id, and each id is mapped to the position of the last record
that carries it. -/
theorem buildIdIndex_last_write_wins (movies : List Movie) :
    (tableKeys (buildIdIndex movies)).Nodup ∧
    (∀ k, k ∈ tableKeys (buildIdIndex movies) ↔ ∃ m ∈ movies, m.movieId = k) ∧
    (∀ k i, tableFind k (buildIdIndex movies) = some i ↔
      (∃ m, movies[i]? = some m ∧ m.movieId = k) ∧
        ∀ j m, i < j → movies[j]? = some m → m.movieId ≠ k) ∧
    (∀ k, tableFind k (buildIdIndex movies) = none ↔ ∀ m ∈ movies, m.movieId ≠ k) := by
  obtain ⟨h1, h2⟩ := tableKeys_buildIdIndexFrom movies 0 [] (by simp [tableKeys])
  refine ⟨h1, ?_, ?_, ?_⟩
  · intro k
    have := h2 k
    simpa [tableKeys, buildIdIndex] using this
  · intro k i
    rw [tableFind_buildIdIndex]
    exact lastPos_eq_some_iff k movies i
  · intro k
    rw [tableFind_buildIdIndex]
    exact lastPos_eq_none_iff k movies

/-- C11 fails on the code: with the genres `Comedy` and `comedy` in two records the
table `genreIndexLower` keeps under the key `comedy` the positions of one spelling
only, whichever entry of `genreIndex` the loop visits last, never both positions. -/
theorem genreIndexLower_keeps_one_spelling :
    loadMovies ["movieId,title,genres".toList, "1,A,Comedy".toList, "2,B,comedy".toList]
      = some [⟨1, "A".toList, -1, ["Comedy".toList]⟩,
          ⟨2, "B".toList, -1, ["comedy".toList]⟩] ∧
    buildGenreIndex [⟨1, "A".toList, -1, ["Comedy".toList]⟩,
        ⟨2, "B".toList, -1, ["comedy".toList]⟩]
      = [("Comedy".toList, [0]), ("comedy".toList, [1])] ∧
    (∀ entries : List (Str × List Nat),
      entries.Perm (buildGenreIndex [⟨1, "A".toList, -1, ["Comedy".toList]⟩,
        ⟨2, "B".toList, -1, ["comedy".toList]⟩]) →
      tableFind "comedy".toList (genreIndexLower entries) ≠ some [0, 1] ∧
      (tableFind "comedy".toList (genreIndexLower entries) = some [0] ∨
        tableFind "comedy".toList (genreIndexLower entries) = some [1])) := by
  have hidx : buildGenreIndex [⟨1, "A".toList, -1, ["Comedy".toList]⟩,
        ⟨2, "B".toList, -1, ["comedy".toList]⟩]
      = [("Comedy".toList, [0]), ("comedy".toList, [1])] := by decide
  refine ⟨by decide, hidx, ?_⟩
  intro entries hperm
  rw [hidx] at hperm
  have hlen := hperm.length_eq
  match entries, hperm, hlen with
  | [x, y], hperm, _ =>
    have hx : x ∈ [("Comedy".toList, [0]), ("comedy".toList, [1])] :=
      hperm.subset (by simp)
    have hy : y ∈ [("Comedy".toList, [0]), ("comedy".toList, [1])] :=
      hperm.subset (by simp)
    simp only [List.mem_cons, List.mem_singleton, List.not_mem_nil, or_false] at hx hy
    rcases hx with hx | hx <;> rcases hy with hy | hy <;> subst hx <;> subst hy <;> decide

/-- C12: `getAllGenres` returns a list that is strictly ascending in the
lexicographic order of strings, hence without duplicates, and whose elements are
exactly the genre strings, in their original letter case, of the records; the order
in which the set hands out its elements does not matter. -/
theorem getAllGenres_sorted_distinct (movies : List Movie) :
    (getAllGenres movies).Sorted (· < ·) ∧
    (getAllGenres movies).Nodup ∧
    (∀ g, g ∈ getAllGenres movies ↔ ∃ m ∈ movies, g ∈ m.genres) ∧
    (∀ elems : List Str, elems.Perm (collectGenres [] movies) →
      stdSort elems = getAllGenres movies) ∧
    (∀ a b : Str, a < b ↔ List.Lex (fun x y : Char => x < y) a b) := by
  obtain ⟨hnd, hmem⟩ := collectGenres_spec movies [] List.nodup_nil
  have hperm : ∀ l : List Str, (stdSort l).Perm l := List.perm_insertionSort _
  have hsort : ∀ l : List Str, (stdSort l).Sorted (· ≤ ·) := List.sorted_insertionSort _
  have hnd2 : (getAllGenres movies).Nodup := (hperm _).nodup_iff.2 hnd
  refine ⟨(hsort _).lt_of_le hnd2, hnd2, fun g => ?_, fun elems hp => ?_, fun a b => Iff.rfl⟩
  · rw [getAllGenres, (hperm _).mem_iff, hmem g]
    simp
  · exact List.eq_of_perm_of_sorted (((hperm elems).trans hp).trans (hperm _).symm)
      (hsort elems) (hsort _)

/-- C14: a title without `(`, or without `)`, or whose last `)` comes before its last
`(`, gets the year `-1` and stays unchanged. -/
theorem extractYear_without_parentheses (title : Str)
    (h : '(' ∉ title ∨ ')' ∉ title ∨
      ∃ o c, find_last_of '(' title = some o ∧ find_last_of ')' title = some c ∧ c < o) :
    extractYear title = some (-1, title) := by
  unfold extractYear
  rcases h with h | h | ⟨o, c, ho, hc, hco⟩
  · rw [(find_last_of_eq_none_iff '(' title).2 h]
  · rw [(find_last_of_eq_none_iff ')' title).2 h]
    cases find_last_of '(' title <;> rfl
  · rw [ho, hc]
    simp only [gt_iff_lt]
    rw [if_neg (by omega)]

/-- Witness of C14: the title `Toy Story`. -/
theorem extractYear_without_parentheses_witness :
    extractYear "Toy Story".toList = some (-1, "Toy Story".toList) :=
  extractYear_without_parentheses "Toy Story".toList (Or.inl (by decide))

/-- C15 as stated fails: `1995a` and ` 1995` are not optionally signed strings of
decimal digits, yet `std::stoi` reads 1995 from them, the year is set and the title is
cut. -/
theorem extractYear_accepts_trailing_text :
    isSignedDigits "1995a".toList = false ∧
    extractYear "Movie (1995a)".toList = some (1995, "Movie".toList) ∧
    isSignedDigits " 1995".toList = false ∧
    extractYear "Movie ( 1995)".toList = some (1995, "Movie".toList) := by
  decide

/-- C15, amended: when `std::stoi` rejects the text between the last `(` and the last
`)` of a title, the year is `-1` and the title stays untouched. -/
theorem extractYear_rejected_text (title : Str) (o c : Nat)
    (ho : find_last_of '(' title = some o) (hc : find_last_of ')' title = some c)
    (hoc : o < c) (hy : stoi ((title.drop (o + 1)).take (c - o - 1)) = none) :
    extractYear title = some (-1, title) := by
  rw [extractYear_of_order title o c ho hc hoc, hy]

/-- Witness of C15: the title `Brazil (uncut)`. -/
theorem extractYear_rejected_text_witness :
    stoi "uncut".toList = none ∧
    extractYear "Brazil (uncut)".toList = some (-1, "Brazil (uncut)".toList) :=
  ⟨by decide,
   extractYear_rejected_text "Brazil (uncut)".toList 7 13 (by decide) (by decide)
    (by decide) (by decide)⟩

/-- C16 as stated fails: the genre field `a||b` gives the genres `a`, the empty string
and `b`, and the genre field `|a` starts with an empty genre. -/
theorem genres_can_hold_empty_string :
    parseLine "1,T,a||b".toList
      = some ⟨1, "T".toList, -1, ["a".toList, [], "b".toList]⟩ ∧
    parseLine "1,T,|a".toList = some ⟨1, "T".toList, -1, [[], "a".toList]⟩ := by
  decide

/-- C16, amended: for a line that parses into a record, every element of the genres is
a non-empty string exactly when the genre field does not begin with `|` and has no
two `|` next to each other. -/
theorem genres_nonempty_iff (line idStr title genresStr : Str) (m : Movie)
    (hraw : rawFields line = some (idStr, title, genresStr))
    (hp : parseLine line = some m) :
    (∀ g ∈ m.genres, g ≠ []) ↔
      genresStr.head? ≠ some '|' ∧
        genresStr.Chain' (fun x y => ¬ (x = '|' ∧ y = '|')) := by
  rw [genres_of_parseLine line idStr title genresStr m hraw hp]
  simpa [not_and] using (splitRec_nonempty_iff '|' genresStr).2

/-- Witness of C16: the line `1,Toy Story (1995),Animation|Comedy`. -/
theorem genres_nonempty_iff_witness :
    rawFields "1,Toy Story (1995),Animation|Comedy".toList
      = some ("1".toList, "Toy Story (1995)".toList, "Animation|Comedy".toList) ∧
    parseLine "1,Toy Story (1995),Animation|Comedy".toList
      = some ⟨1, "Toy Story".toList, 1995, ["Animation".toList, "Comedy".toList]⟩ ∧
    ((∀ g ∈ (⟨1, "Toy Story".toList, 1995, ["Animation".toList, "Comedy".toList]⟩ :
        Movie).genres, g ≠ []) ↔
      "Animation|Comedy".toList.head? ≠ some '|' ∧
        "Animation|Comedy".toList.Chain' (fun x y => ¬ (x = '|' ∧ y = '|'))) :=
  ⟨by decide, by decide,
   genres_nonempty_iff "1,Toy Story (1995),Animation|Comedy".toList "1".toList
    "Toy Story (1995)".toList "Animation|Comedy".toList
    ⟨1, "Toy Story".toList, 1995, ["Animation".toList, "Comedy".toList]⟩
    (by decide) (by decide)⟩

/-- C17: a line that parses and whose genre field is empty gives a record without
genres, since `split` of the empty string has no element; the genre field is empty
when nothing follows the second comma of a line without quotes and when nothing
follows the comma after the closing quote. -/
theorem empty_genre_field_no_genres (line idStr title : Str) (m : Movie)
    (hraw : rawFields line = some (idStr, title, []))
    (hp : parseLine line = some m) :
    m.genres = [] ∧ split [] '|' = [] ∧
    (∀ a b : Str, '"' ∉ a → '"' ∉ b → ',' ∉ a → ',' ∉ b →
      rawFields (a ++ ',' :: (b ++ [','])) = some (a, b, [])) ∧
    (∀ id t : Str, ',' ∉ id → '"' ∉ id →
      rawFields (id ++ ',' :: '"' :: (t ++ ['"', ','])) = some (id, t, [])) := by
  refine ⟨?_, by decide, ?_, ?_⟩
  · rw [genres_of_parseLine line idStr title [] m hraw hp]
    rfl
  · intro a b ha hb hca hcb
    have hq : '"' ∉ a ++ ',' :: (b ++ ',' :: []) := by
      simp only [List.mem_append, List.mem_cons, List.not_mem_nil, not_or]
      exact ⟨ha, by decide, hb, by decide, not_false⟩
    have := rawFields_unquoted a b [] hq hca hcb
    simpa using this
  · intro id t hc hq
    exact rawFields_quoted id t [] hc hq (by simp)

/-- Witness of C17: the line `5,Heat (1995),`. -/
theorem empty_genre_field_no_genres_witness :
    rawFields "5,Heat (1995),".toList = some ("5".toList, "Heat (1995)".toList, []) ∧
    parseLine "5,Heat (1995),".toList = some ⟨5, "Heat".toList, 1995, []⟩ ∧
    (⟨5, "Heat".toList, 1995, []⟩ : Movie).genres = [] :=
  ⟨by decide, by decide,
   (empty_genre_field_no_genres "5,Heat (1995),".toList "5".toList "Heat (1995)".toList
    ⟨5, "Heat".toList, 1995, []⟩ (by decide) (by decide)).1⟩

/-- C18: lowercasing the title-cased form of a string gives the lowercase of the
string itself. -/
theorem toLower_capitalizeWords (g : Str) :
    toLower (capitalizeWords g) = toLower g :=
  toLower_capitalizeLoop g true

/-- C20: for a string that does not end with the delimiter, joining the tokens of
`split` with the delimiter gives the string back; no token holds the delimiter; and
of a string that ends with the delimiter exactly that last delimiter is lost. -/
theorem join_split_roundtrip (d : Char) (s : Str) (hs : s.getLast? ≠ some d) :
    joinWith d (split s d) = s ∧
    (∀ t ∈ split s d, d ∉ t) ∧
    (∀ u : Str, joinWith d (split (u ++ [d]) d) = u) := by
  refine ⟨?_, ?_, ?_⟩
  · rw [split_eq_splitRec, joinWith_splitRec, if_neg hs]
  · rw [split_eq_splitRec]
    exact not_mem_of_mem_splitRec d s
  · intro u
    rw [split_eq_splitRec, joinWith_splitRec]
    simp

/-- Witness of C20: the string `|a||b` split at `|`. -/
theorem join_split_roundtrip_witness :
    "|a||b".toList.getLast? ≠ some '|' ∧
    joinWith '|' (split "|a||b".toList '|') = "|a||b".toList :=
  ⟨by decide, (join_split_roundtrip '|' "|a||b".toList (by decide)).1⟩

end MovieSearcher
